import Mathlib

/-!
Verification of the multixstar job-isolation and parallel-execution engine
(`multixstar.py`).  Filesystem paths are modelled as lists of components,
the filesystem as explicit lists of existing directories and files, and the
process environment as an association list.  Machine-level side effects
(subprocess launches, the external XSTAR binary) are out of scope; every
function below mirrors the corresponding Python function of the source.
-/

/-- Filesystem paths, as lists of path components (pathlib `Path.parts`). -/
abbrev FsPath := List String

/-- Filesystem state: the set of existing directories and existing files. -/
structure FS where
  dirs : List FsPath
  files : List FsPath
deriving DecidableEq, Repr

/-- Existence check used by pathlib `Path.exists`: a path exists when it is
a directory or a file. -/
def FS.pathExists (fs : FS) (p : FsPath) : Bool :=
  decide (p ∈ fs.dirs) || decide (p ∈ fs.files)

/-! ### Decimal rendering of naturals (Python `str` / `"%0Nd"` formatting) -/

/-- Characters produced by decimal formatting of single digits. -/
def digitChar : Nat → Char
  | 0 => '0'
  | 1 => '1'
  | 2 => '2'
  | 3 => '3'
  | 4 => '4'
  | 5 => '5'
  | 6 => '6'
  | 7 => '7'
  | 8 => '8'
  | 9 => '9'
  | _ => '?'

/-- Value of a big-endian digit list (most significant digit first). -/
def vBE (l : List Nat) : Nat := l.foldl (fun a d => 10 * a + d) 0

/-- Fuel-driven big-endian base-10 digit expansion; `fuel ≥ n` suffices. -/
def digitsBEAux : Nat → Nat → List Nat
  | _, 0 => []
  | 0, _ + 1 => []
  | fuel + 1, n + 1 => digitsBEAux fuel ((n + 1) / 10) ++ [(n + 1) % 10]

/-- Big-endian base-10 digits of `n`, with `digitsBE 0 = [0]` matching
Python `str(0) = "0"`. -/
def digitsBE (n : Nat) : List Nat := if n = 0 then [0] else digitsBEAux n n

/-- Python `str(n)` for a natural number. -/
def natToString (n : Nat) : String := ⟨(digitsBE n).map digitChar⟩

/-- Python `len(str(n))`: the number of decimal digits of `n`. -/
def digitCount (n : Nat) : Nat := (digitsBE n).length

/-- Digits of `i` zero-padded on the left to width `w` (Python `"%0wd" % i`),
as a digit list. -/
def padKey (w i : Nat) : List Nat :=
  List.replicate (w - (digitsBE i).length) 0 ++ digitsBE i

/-- Python `"%0wd" % i` as a string. -/
def padKeyStr (w i : Nat) : String := ⟨(padKey w i).map digitChar⟩

/-! ### `make_jobs` (multixstar.py lines 206-209) -/

/-- Source `make_jobs`: keys are `enumerate(cmds, start=1)` indices rendered
with `"%0Nd"` where `N = len(str(len(cmds)))`; the job set is the
insertion-ordered dict `{key: command}`. -/
def make_jobs (cmds : List String) : List (String × String) :=
  (List.enumFrom 1 cmds).map (fun p => (padKeyStr (digitCount cmds.length) p.1, p.2))

/-! ### `get_model_name` (multixstar.py lines 220-222) -/

/-- Pattern text of the regular expression `modelname='(.*?)'`
(only the literal part, the capture group is handled by the scanner). -/
def patModelname : List Char := "modelname='".data

/-- Non-greedy capture `(.*?)'`: the characters before the first closing
single quote; `none` when no closing quote follows or when a newline
intervenes first (Python's `.` does not match a newline without
`re.DOTALL`). -/
def takeUntilQuote : List Char → Option (List Char)
  | [] => none
  | c :: rest =>
    if c = '\'' then some []
    else if c = '\n' then none
    else (takeUntilQuote rest).map (c :: ·)

/-- `re.search` for `modelname='(.*?)'`: try each start position from the
left; at a position where the literal prefix matches and a closing quote
follows, return the capture, otherwise keep scanning. -/
def searchModelname : List Char → Option (List Char)
  | [] => none
  | c :: rest =>
    if patModelname.isPrefixOf (c :: rest) then
      match takeUntilQuote ((c :: rest).drop patModelname.length) with
      | some v => some v
      | none => searchModelname rest
    else searchModelname rest

/-- Whether the text contains an occurrence of the literal pattern
`modelname='`, i.e. some suffix starts with it; `containsPat_iff` below
identifies this scanner with the substring decomposition. -/
def containsPat : List Char → Bool
  | [] => false
  | c :: rest => patModelname.isPrefixOf (c :: rest) || containsPat rest

/-- Source `get_model_name`: `next(iter(jobs.values()))` raises
`StopIteration` on an empty job set; `re.search(...).group(1)` raises
`AttributeError` when the search returns `None`. -/
def get_model_name (jobs : List (String × String)) : Except String String :=
  match jobs with
  | [] => .error "StopIteration"
  | (_, cmd) :: _ =>
    match searchModelname cmd.data with
    | some v => .ok ⟨v⟩
    | none => .error "AttributeError"

/-! ### `get_new_dir` / `make_new_dir` (multixstar.py lines 84-96) -/

/-- Source `get_new_dir`: `dir / "mxstar.<num>"`, or
`dir / "mxstar.<extra>_<num>"` when a qualifier is given. -/
def get_new_dir (dir : FsPath) (num : Nat) (extra : Option String) : FsPath :=
  dir ++ [match extra with
          | some e => "mxstar." ++ e ++ "_" ++ natToString num
          | none => "mxstar." ++ natToString num]

/-- The `while new_dir.exists(): i += 1` scan of `make_new_dir`, with
explicit fuel (the source loop terminates because the filesystem is
finite). -/
def make_new_dir_loop (fs : FS) (dir : FsPath) (extra : Option String) :
    Nat → Nat → Option Nat
  | 0, _ => none
  | fuel + 1, i =>
    if fs.pathExists (get_new_dir dir i extra) then
      make_new_dir_loop fs dir extra fuel (i + 1)
    else some i

/-- Source `make_new_dir`: scan ordinals from 0, create the first candidate
that does not exist, and return it together with the updated filesystem. -/
def make_new_dir (fs : FS) (dir : FsPath) (extra : Option String) :
    Option (FsPath × FS) :=
  match make_new_dir_loop fs dir extra (fs.dirs.length + fs.files.length + 1) 0 with
  | some i =>
    some (get_new_dir dir i extra, { fs with dirs := get_new_dir dir i extra :: fs.dirs })
  | none => none

/-! ### `check_enviroment` (multixstar.py lines 158-169) -/

/-- Source `check_enviroment`: requires `FTOOLS` in the environment and
`dir` to be a directory, then touches and unlinks the probe file
`write_check.test` inside `dir`. -/
def check_enviroment (env : List (String × String)) (fs : FS) (dir : FsPath) :
    Except String FS :=
  if (env.lookup "FTOOLS").isNone then
    .error "FTOOLS not set: please run heainit and rerun"
  else if dir ∉ fs.dirs then
    .error "is not a dir"
  else
    let probe := dir ++ ["write_check.test"]
    let touched := if probe ∈ fs.files then fs.files else probe :: fs.files
    .ok { fs with files := touched.erase probe }

/-! ### `setup_pfiles` / `run_xstar` (multixstar.py lines 49-55 and 66-81) -/

/-- Source `setup_pfiles`, run with the job's directory as current working
directory: `mkdir` of the relative `pfiles` directory (raises when it
already exists), then `Path(os.getenv("HEADAS"))` (a `TypeError` when the
variable is unset), then the copy of `syspfiles/xstar.par` into the private
`pfiles` directory.  Returns the updated filesystem and the `pfiles`
directory. -/
def setup_pfiles (env : List (String × String)) (jobDir : FsPath) (fs : FS) :
    Except String (FS × FsPath) :=
  if fs.pathExists (jobDir ++ ["pfiles"]) then
    .error "FileExistsError: pfiles"
  else
    match env.lookup "HEADAS" with
    | none => .error "TypeError: expected str, not NoneType"
    | some headas =>
      if ([headas, "syspfiles", "xstar.par"] : FsPath) ∈ fs.files then
        .ok ({ dirs := (jobDir ++ ["pfiles"]) :: fs.dirs,
               files := (jobDir ++ ["pfiles", "xstar.par"]) :: fs.files },
             jobDir ++ ["pfiles"])
      else .error "FileNotFoundError: xstar.par"

/-- Filesystem effect of source `run_xstar` on one `(dir, cmd)` job entry:
`os.chdir(dir)` followed by `setup_pfiles()` in that directory (the external
XSTAR subprocess itself is an opaque external collaborator). -/
def run_xstar_fs (env : List (String × String)) (fs : FS) (arg : FsPath × String) :
    Except String (FS × FsPath) :=
  setup_pfiles env arg.1 fs

/-! ### `check_results` (multixstar.py lines 212-217) -/

/-- Source `check_results`: collect, in order, the result directories that
do not contain the fixed spectral artifact `xout_spect1.fits`. -/
def check_results (fs : FS) (result_dirs : List FsPath) : List FsPath :=
  result_dirs.filter (fun dir => ! fs.pathExists (dir ++ ["xout_spect1.fits"]))

/-- The per-job run directories of `main` (line 295): one subdirectory of
the model directory per job key. -/
def run_dirs_of (model_dir : FsPath) (keys : List String) : List FsPath :=
  keys.map (fun k => model_dir ++ [k])

/-! ### `make_xstable` (multixstar.py lines 239-257) and the tail of `main` -/

/-- Last component of a path (pathlib `Path.name`, `""` for an empty path). -/
def pathName (p : FsPath) : String := p.getLast?.getD ""

/-- Helper for `removeSuffix`: drop characters of a reversed name through
the first `'.'`; `none` when the name has no dot. -/
def revDropThroughDot : List Char → Option (List Char)
  | [] => none
  | c :: rest => if c = '.' then some rest else revDropThroughDot rest

/-- Name without its final extension (pathlib `Path.stem` behaviour: a name
whose only dot is the leading one keeps its full text). -/
def removeSuffix (name : String) : String :=
  match revDropThroughDot name.data.reverse with
  | some rest => if rest = [] then name else ⟨rest.reverse⟩
  | none => name

/-- Python `str.startswith(".")` on the suffix argument. -/
def startsWithDot (s : String) : Bool :=
  match s.data with
  | '.' :: _ => true
  | _ => false

/-- pathlib `Path.with_suffix`: raises `ValueError` when the new suffix is
non-empty and does not start with a dot; otherwise replaces the final
extension of the last component. -/
def with_suffix (p : FsPath) (newSuffix : String) : Except String FsPath :=
  if newSuffix ≠ "" ∧ startsWithDot newSuffix = false then
    .error "ValueError: Invalid suffix"
  else
    match p with
    | [] => .error "ValueError: empty name"
    | _ => .ok (p.dropLast ++ [removeSuffix (pathName p) ++ newSuffix])

/-- Paths existing under `src` rebased below `dst` (the recursive copy
performed by `distutils.dir_util.copy_tree` on a directory). -/
def rebase (src dst p : FsPath) : Option FsPath :=
  if src.isPrefixOf p && decide (p ≠ src) then some (dst ++ p.drop src.length)
  else none

/-- `distutils.dir_util.copy_tree`: raises `DistutilsFileError` when `src`
is not a directory; otherwise creates `dst` and copies the tree below
`src`. -/
def copy_tree (fs : FS) (src dst : FsPath) : Except String FS :=
  if src ∈ fs.dirs then
    .ok { dirs := dst :: fs.dirs.filterMap (rebase src dst) ++ fs.dirs,
          files := fs.files.filterMap (rebase src dst) ++ fs.files }
  else .error "DistutilsFileError: cannot copy tree: not a directory"

/-- Component-wise path comparison used by Python `sorted` on `Path`
values (tuple comparison of parts, strings ordered lexicographically). -/
def pathLE : FsPath → FsPath → Bool
  | [], _ => true
  | _ :: _, [] => false
  | a :: as, b :: bs => if a = b then pathLE as bs else decide (a < b)

/-- Source `make_xstable`: derive the base-table source file from the
arguments (`Path(args[0]).with_suffix("fits")`, or `xstinitable.fits` when
no arguments were given), copy it with `copy_tree` onto the three
base-table names in the model directory, then list the `xstar2table`
invocations, one per run directory in `sorted` order, each pointing at that
directory's `xout_spect1.fits`. -/
def make_xstable (args : List String) (fs : FS) (run_dirs : List FsPath)
    (model_dir : FsPath) : Except String (FS × List FsPath) := do
  let base_file ← match args with
    | [] => pure (["xstinitable.fits"] : FsPath)
    | a :: _ => do
      let p ← with_suffix [a] "fits"
      pure ([pathName p] : FsPath)
  let fs1 ← copy_tree fs base_file (model_dir ++ ["xout_ain.fits"])
  let fs2 ← copy_tree fs1 base_file (model_dir ++ ["xout_aout.fits"])
  let fs3 ← copy_tree fs2 base_file (model_dir ++ ["xout_mtable.fits"])
  pure (fs3, (run_dirs.mergeSort pathLE).map (fun d => d ++ ["xout_spect1.fits"]))

/-- Tail of source `main` (lines 303-312): after the pool has drained,
gather the failed run directories; when some job failed, log and
`sys.exit(1)` without aggregation; otherwise call `make_xstable`, whose
uncaught exception (if any) also terminates the interpreter with a nonzero
status.  Returns the exit status and whether `make_xstable` was invoked. -/
def main_tail (args : List String) (fs : FS) (run_dirs : List FsPath)
    (model_dir : FsPath) : Nat × Bool :=
  let failed := check_results fs run_dirs
  if failed.length > 0 then (1, false)
  else
    match make_xstable args fs run_dirs model_dir with
    | .ok _ => (0, true)
    | .error _ => (1, true)

/-! ### Arithmetic facts about the decimal rendering helpers -/

lemma digitsBEAux_eq : ∀ (fuel n : Nat), n ≤ fuel →
    digitsBEAux fuel n = (Nat.digits 10 n).reverse := by
  intro fuel
  induction fuel with
  | zero =>
    intro n hn
    have : n = 0 := Nat.le_zero.mp hn
    subst this
    simp [digitsBEAux]
  | succ fuel ih =>
    intro n hn
    match n with
    | 0 => simp [digitsBEAux]
    | m + 1 =>
      have hdiv : (m + 1) / 10 ≤ fuel := by
        have h1 : (m + 1) / 10 < m + 1 := Nat.div_lt_self (by omega) (by omega)
        omega
      rw [show digitsBEAux (fuel + 1) (m + 1) =
            digitsBEAux fuel ((m + 1) / 10) ++ [(m + 1) % 10] from rfl]
      rw [ih _ hdiv, Nat.digits_def' (by norm_num : (1 : Nat) < 10) (Nat.succ_pos m)]
      simp

lemma digitsBE_eq {n : Nat} (h : n ≠ 0) : digitsBE n = (Nat.digits 10 n).reverse := by
  simp only [digitsBE, if_neg h]
  exact digitsBEAux_eq n n le_rfl

lemma vBE_foldl (c : Nat) (l : List Nat) :
    l.foldl (fun a d => 10 * a + d) c = c * 10 ^ l.length + vBE l := by
  induction l generalizing c with
  | nil => simp [vBE]
  | cons d l ih =>
    have hv : vBE (d :: l) = d * 10 ^ l.length + vBE l := by
      show List.foldl _ (10 * 0 + d) l = _
      rw [show 10 * 0 + d = d from by omega, ih d]
    simp only [List.foldl_cons, List.length_cons]
    rw [ih (10 * c + d), hv]
    ring

lemma vBE_cons (d : Nat) (l : List Nat) :
    vBE (d :: l) = d * 10 ^ l.length + vBE l := by
  show List.foldl _ (10 * 0 + d) l = _
  rw [show 10 * 0 + d = d from by omega, vBE_foldl d l]

lemma vBE_append_singleton (l : List Nat) (d : Nat) :
    vBE (l ++ [d]) = 10 * vBE l + d := by
  simp [vBE, List.foldl_append]

lemma vBE_reverse (l : List Nat) : vBE l.reverse = Nat.ofDigits 10 l := by
  induction l with
  | nil => rfl
  | cons d l ih =>
    rw [List.reverse_cons, vBE_append_singleton, ih, Nat.ofDigits_cons]
    ring

lemma vBE_digitsBE (n : Nat) : vBE (digitsBE n) = n := by
  by_cases h : n = 0
  · subst h; rfl
  · rw [digitsBE_eq h, vBE_reverse, Nat.ofDigits_digits]

lemma digitsBE_lt (n : Nat) : ∀ d ∈ digitsBE n, d < 10 := by
  intro d hd
  by_cases h : n = 0
  · subst h
    simp [digitsBE] at hd
    omega
  · rw [digitsBE_eq h, List.mem_reverse] at hd
    exact Nat.digits_lt_base (by norm_num) hd

lemma digitsBE_inj {m n : Nat} (h : digitsBE m = digitsBE n) : m = n := by
  have hm := vBE_digitsBE m
  rw [h, vBE_digitsBE] at hm
  omega

lemma digitChar_inj_lt : ∀ a < 10, ∀ b < 10, digitChar a = digitChar b → a = b := by decide

lemma digitChar_lt_iff : ∀ a < 10, ∀ b < 10, (a < b ↔ digitChar a < digitChar b) := by decide

lemma map_digitChar_inj : ∀ (A B : List Nat), (∀ d ∈ A, d < 10) → (∀ d ∈ B, d < 10) →
    A.map digitChar = B.map digitChar → A = B := by
  intro A
  induction A with
  | nil =>
    intro B _ _ h
    cases B with
    | nil => rfl
    | cons b bs => simp at h
  | cons a as ih =>
    intro B hA hB h
    cases B with
    | nil => simp at h
    | cons b bs =>
      simp only [List.map_cons, List.cons.injEq] at h
      have ha : a = b :=
        digitChar_inj_lt a (hA a (List.mem_cons_self a as)) b (hB b (List.mem_cons_self b bs)) h.1
      have hrest := ih bs (fun d hd => hA d (List.mem_cons_of_mem a hd))
        (fun d hd => hB d (List.mem_cons_of_mem b hd)) h.2
      rw [ha, hrest]

lemma natToString_data_inj {m n : Nat} (h : (natToString m).data = (natToString n).data) :
    m = n := by
  have hmap : (digitsBE m).map digitChar = (digitsBE n).map digitChar := h
  exact digitsBE_inj (map_digitChar_inj _ _ (digitsBE_lt m) (digitsBE_lt n) hmap)

lemma digitCount_mono {i n : Nat} (hi : 1 ≤ i) (hin : i ≤ n) :
    digitCount i ≤ digitCount n := by
  have hi' : i ≠ 0 := by omega
  have hn' : n ≠ 0 := by omega
  unfold digitCount
  rw [digitsBE_eq hi', digitsBE_eq hn', List.length_reverse, List.length_reverse]
  rw [Nat.digits_len 10 i (by norm_num) hi', Nat.digits_len 10 n (by norm_num) hn']
  have := Nat.log_mono_right (b := 10) hin
  omega

lemma padKey_lt (w i : Nat) : ∀ d ∈ padKey w i, d < 10 := by
  intro d hd
  rw [padKey, List.mem_append] at hd
  rcases hd with hd | hd
  · rw [List.mem_replicate] at hd
    omega
  · exact digitsBE_lt i d hd

lemma vBE_zero_cons (l : List Nat) : vBE (0 :: l) = vBE l := by
  rw [vBE_cons]
  omega

lemma vBE_replicate_append (z : Nat) (l : List Nat) :
    vBE (List.replicate z 0 ++ l) = vBE l := by
  induction z with
  | zero => simp
  | succ z ih =>
    rw [List.replicate_succ, List.cons_append, vBE_zero_cons, ih]

lemma vBE_padKey (w i : Nat) : vBE (padKey w i) = i := by
  rw [padKey, vBE_replicate_append, vBE_digitsBE]

lemma padKey_length {w i : Nat} (h : (digitsBE i).length ≤ w) :
    (padKey w i).length = w := by
  simp [padKey]
  omega

lemma vBE_lt_pow (l : List Nat) (h : ∀ d ∈ l, d < 10) : vBE l < 10 ^ l.length := by
  induction l with
  | nil => simp [vBE]
  | cons d l ih =>
    have hd := h d (List.mem_cons_self d l)
    have hl := ih (fun x hx => h x (List.mem_cons_of_mem d hx))
    rw [vBE_cons, List.length_cons, pow_succ]
    calc d * 10 ^ l.length + vBE l < d * 10 ^ l.length + 10 ^ l.length :=
          Nat.add_lt_add_left hl _
      _ = (d + 1) * 10 ^ l.length := by ring
      _ ≤ 10 * 10 ^ l.length := Nat.mul_le_mul_right _ (by omega)
      _ = 10 ^ l.length * 10 := by ring

lemma lex_map_digitChar : ∀ (A B : List Nat), A.length = B.length →
    (∀ d ∈ A, d < 10) → (∀ d ∈ B, d < 10) → vBE A < vBE B →
    List.Lex (· < ·) (A.map digitChar) (B.map digitChar) := by
  intro A
  induction A with
  | nil =>
    intro B hlen _ _ hv
    cases B with
    | nil => simp [vBE] at hv
    | cons b bs => simp at hlen
  | cons a as ih =>
    intro B hlen hA hB hv
    cases B with
    | nil => simp at hlen
    | cons b bs =>
      simp only [List.length_cons, Nat.succ.injEq] at hlen
      have ha10 := hA a (List.mem_cons_self a as)
      have hb10 := hB b (List.mem_cons_self b bs)
      rcases Nat.lt_trichotomy a b with hab | hab | hab
      · exact List.Lex.rel ((digitChar_lt_iff a ha10 b hb10).mp hab)
      · subst hab
        have hv' : vBE as < vBE bs := by
          rw [vBE_cons, vBE_cons, hlen] at hv
          omega
        exact List.Lex.cons (ih bs hlen (fun d hd => hA d (List.mem_cons_of_mem a hd))
          (fun d hd => hB d (List.mem_cons_of_mem a hd)) hv')
      · exfalso
        have hbs : vBE bs < 10 ^ bs.length :=
          vBE_lt_pow bs (fun d hd => hB d (List.mem_cons_of_mem b hd))
        have h1 : vBE (b :: bs) < (b + 1) * 10 ^ bs.length := by
          rw [vBE_cons, Nat.succ_mul]
          exact Nat.add_lt_add_left hbs _
        have h2 : (b + 1) * 10 ^ bs.length ≤ a * 10 ^ bs.length :=
          Nat.mul_le_mul_right _ (by omega)
        have h3 : a * 10 ^ bs.length ≤ vBE (a :: as) := by
          rw [vBE_cons, hlen]
          exact Nat.le_add_right _ _
        have : vBE (b :: bs) < vBE (a :: as) := lt_of_lt_of_le (lt_of_lt_of_le h1 h2) h3
        exact absurd hv (Nat.lt_asymm this)

lemma padKeyStr_lt {w i j : Nat} (hi : (digitsBE i).length ≤ w)
    (hj : (digitsBE j).length ≤ w) (hij : i < j) : padKeyStr w i < padKeyStr w j := by
  rw [String.lt_iff_toList_lt]
  show List.Lex (· < ·) ((padKey w i).map digitChar) ((padKey w j).map digitChar)
  apply lex_map_digitChar
  · rw [padKey_length hi, padKey_length hj]
  · exact padKey_lt w i
  · exact padKey_lt w j
  · rw [vBE_padKey, vBE_padKey]
    exact hij

lemma padKeyStr_inj {w i j : Nat} (h : padKeyStr w i = padKeyStr w j) : i = j := by
  have hd : (padKey w i).map digitChar = (padKey w j).map digitChar := congrArg String.data h
  have hk := map_digitChar_inj _ _ (padKey_lt w i) (padKey_lt w j) hd
  have := congrArg vBE hk
  rw [vBE_padKey, vBE_padKey] at this
  exact this

/-! ### Structure of the job keys produced by `make_jobs` -/

lemma make_jobs_map_snd (cmds : List String) : (make_jobs cmds).map Prod.snd = cmds := by
  unfold make_jobs
  rw [List.map_map]
  rw [show (Prod.snd ∘ fun p : Nat × String =>
        (padKeyStr (digitCount cmds.length) p.1, p.2)) = Prod.snd from rfl]
  rw [List.enumFrom_map_snd]

lemma make_jobs_map_fst (cmds : List String) :
    (make_jobs cmds).map Prod.fst =
      (List.range' 1 cmds.length).map (padKeyStr (digitCount cmds.length)) := by
  unfold make_jobs
  rw [List.map_map]
  rw [show (Prod.fst ∘ fun p : Nat × String =>
        (padKeyStr (digitCount cmds.length) p.1, p.2)) =
      (padKeyStr (digitCount cmds.length)) ∘ Prod.fst from rfl]
  rw [← List.map_map, List.enumFrom_map_fst]

/-- C5.  For every non-empty command list of length `n`, `make_jobs` yields
one job per command preserving the input order, with `n` distinct keys: each
key is the zero-padded decimal rendering of its 1-based position at width
`digitCount n`, every key has string length `digitCount n`, and the keys in
input (= numeric) order are strictly increasing in the lexicographic string
order. -/
theorem make_jobs_keys_spec (cmds : List String) (h : cmds ≠ []) :
    (make_jobs cmds).length = cmds.length ∧
    (make_jobs cmds).map Prod.snd = cmds ∧
    (make_jobs cmds).map Prod.fst =
      (List.range' 1 cmds.length).map (padKeyStr (digitCount cmds.length)) ∧
    (∀ k ∈ (make_jobs cmds).map Prod.fst, k.length = digitCount cmds.length) ∧
    ((make_jobs cmds).map Prod.fst).Nodup ∧
    ((make_jobs cmds).map Prod.fst).Pairwise (· < ·) := by
  have hn : cmds.length ≠ 0 := fun h0 => h (List.length_eq_zero.mp h0)
  have hw : ∀ i, 1 ≤ i → i ≤ cmds.length →
      (digitsBE i).length ≤ digitCount cmds.length := by
    intro i h1 h2
    exact digitCount_mono h1 h2
  refine ⟨?_, make_jobs_map_snd cmds, make_jobs_map_fst cmds, ?_, ?_, ?_⟩
  · simp [make_jobs]
  · intro k hk
    rw [make_jobs_map_fst] at hk
    simp only [List.mem_map] at hk
    obtain ⟨i, hi, rfl⟩ := hk
    rw [List.mem_range'_1] at hi
    show ((padKey (digitCount cmds.length) i).map digitChar).length = digitCount cmds.length
    rw [List.length_map]
    exact padKey_length (hw i hi.1 (by omega))
  · rw [make_jobs_map_fst]
    exact (List.nodup_range' 1 cmds.length).map_on
      (fun x _ y _ hxy => padKeyStr_inj hxy)
  · rw [make_jobs_map_fst, List.pairwise_map]
    refine (List.pairwise_lt_range' 1 cmds.length).imp_of_mem ?_
    intro a b ha hb hab
    rw [List.mem_range'_1] at ha
    rw [List.mem_range'_1] at hb
    exact padKeyStr_lt (hw a ha.1 (by omega)) (hw b hb.1 (by omega)) hab

/-- Concrete 12-job command list matching the spec's `01`..`12` example. -/
def cmdsW : List String := List.replicate 12 "xstar modelname='mod' spectrum=pow"

/-- Witness for `make_jobs_keys_spec` at a concrete non-empty input. -/
theorem make_jobs_keys_spec_witness :
    cmdsW ≠ [] ∧ ((make_jobs cmdsW).map Prod.fst).Pairwise (· < ·) :=
  ⟨by decide, (make_jobs_keys_spec cmdsW (by decide)).2.2.2.2.2⟩

/-! ### Properties of `get_new_dir` / `make_new_dir` -/

lemma natToString_inj {m n : Nat} (h : natToString m = natToString n) : m = n :=
  natToString_data_inj (congrArg String.data h)

lemma get_new_dir_inj {dir : FsPath} {extra : Option String} {i j : Nat}
    (h : get_new_dir dir i extra = get_new_dir dir j extra) : i = j := by
  unfold get_new_dir at h
  have h1 := List.append_cancel_left h
  cases extra with
  | none =>
    simp only [List.cons.injEq, and_true] at h1
    have h2 := congrArg String.data h1
    simp only [String.data_append] at h2
    exact natToString_data_inj (List.append_cancel_left h2)
  | some e =>
    simp only [List.cons.injEq, and_true] at h1
    have h2 := congrArg String.data h1
    simp only [String.data_append, List.append_assoc] at h2
    have h3 := List.append_cancel_left h2
    have h4 := List.append_cancel_left h3
    exact natToString_data_inj (List.append_cancel_left h4)

lemma make_new_dir_loop_sound (fs : FS) (dir : FsPath) (extra : Option String) :
    ∀ fuel i j, make_new_dir_loop fs dir extra fuel i = some j →
      fs.pathExists (get_new_dir dir j extra) = false ∧ i ≤ j ∧
      ∀ k, i ≤ k → k < j → fs.pathExists (get_new_dir dir k extra) = true := by
  intro fuel
  induction fuel with
  | zero =>
    intro i j h
    simp [make_new_dir_loop] at h
  | succ fuel ih =>
    intro i j h
    rw [make_new_dir_loop] at h
    by_cases hex : fs.pathExists (get_new_dir dir i extra) = true
    · rw [if_pos hex] at h
      obtain ⟨h1, h2, h3⟩ := ih (i + 1) j h
      refine ⟨h1, by omega, ?_⟩
      intro k hk1 hk2
      rcases Nat.eq_or_lt_of_le hk1 with hk | hk
      · rw [← hk]
        exact hex
      · exact h3 k (by omega) hk2
    · rw [if_neg hex] at h
      have hj : i = j := by
        simpa using h
      subst hj
      refine ⟨by simpa using hex, le_rfl, ?_⟩
      intro k hk1 hk2
      omega

lemma make_new_dir_loop_total (fs : FS) (dir : FsPath) (extra : Option String) :
    ∀ fuel i, (∃ j, i ≤ j ∧ j < i + fuel ∧
        fs.pathExists (get_new_dir dir j extra) = false) →
      (make_new_dir_loop fs dir extra fuel i).isSome := by
  intro fuel
  induction fuel with
  | zero =>
    intro i ⟨j, h1, h2, _⟩
    omega
  | succ fuel ih =>
    intro i ⟨j, h1, h2, h3⟩
    rw [make_new_dir_loop]
    by_cases hex : fs.pathExists (get_new_dir dir i extra) = true
    · rw [if_pos hex]
      apply ih (i + 1)
      refine ⟨j, ?_, by omega, h3⟩
      rcases Nat.eq_or_lt_of_le h1 with hk | hk
      · rw [← hk] at h3
        rw [h3] at hex
        cases hex
      · omega
    · rw [if_neg hex]
      rfl

lemma exists_free_ordinal (fs : FS) (dir : FsPath) (extra : Option String) :
    ∃ j, j ≤ fs.dirs.length + fs.files.length ∧
      fs.pathExists (get_new_dir dir j extra) = false := by
  by_contra hc
  push_neg at hc
  have hc' : ∀ j, j ≤ fs.dirs.length + fs.files.length →
      fs.pathExists (get_new_dir dir j extra) = true := by
    intro j hj
    have := hc j hj
    simpa using this
  have hsub : ((List.range (fs.dirs.length + fs.files.length + 1)).map
      (fun j => get_new_dir dir j extra)) ⊆ fs.dirs ++ fs.files := by
    intro p hp
    simp only [List.mem_map, List.mem_range] at hp
    obtain ⟨j, hj, rfl⟩ := hp
    have hex := hc' j (by omega)
    simp only [FS.pathExists, Bool.or_eq_true, decide_eq_true_eq] at hex
    rw [List.mem_append]
    exact hex
  have hnd : ((List.range (fs.dirs.length + fs.files.length + 1)).map
      (fun j => get_new_dir dir j extra)).Nodup :=
    (List.nodup_range _).map_on (fun x _ y _ hxy => get_new_dir_inj hxy)
  have hle := (List.subperm_of_subset hnd hsub).length_le
  simp only [List.length_map, List.length_range, List.length_append] at hle
  omega

lemma make_new_dir_sound (fs : FS) (dir : FsPath) (extra : Option String) :
    ∃ i, make_new_dir fs dir extra =
        some (get_new_dir dir i extra,
          { fs with dirs := get_new_dir dir i extra :: fs.dirs }) ∧
      fs.pathExists (get_new_dir dir i extra) = false ∧
      ∀ k, k < i → fs.pathExists (get_new_dir dir k extra) = true := by
  obtain ⟨j, hj, hfree⟩ := exists_free_ordinal fs dir extra
  have htot := make_new_dir_loop_total fs dir extra
    (fs.dirs.length + fs.files.length + 1) 0 ⟨j, by omega, by omega, hfree⟩
  obtain ⟨i, hi⟩ := Option.isSome_iff_exists.mp htot
  obtain ⟨h1, _, h3⟩ := make_new_dir_loop_sound fs dir extra _ 0 i hi
  refine ⟨i, ?_, h1, fun k hk => h3 k (Nat.zero_le k) hk⟩
  unfold make_new_dir
  rw [hi]

/-- C6.  Directory allocation always succeeds, returning the candidate
`dir/mxstar.{extra_}i` for the smallest ordinal `i` whose candidate does not
already exist; the returned path did not exist before the call and exists
after it, and a second allocation with the same arguments returns a
different path. -/
theorem make_new_dir_spec (fs : FS) (dir : FsPath) (extra : Option String) :
    ∃ p fs' p' fs'' i,
      make_new_dir fs dir extra = some (p, fs') ∧
      make_new_dir fs' dir extra = some (p', fs'') ∧
      fs.pathExists p = false ∧
      fs'.pathExists p = true ∧
      p = get_new_dir dir i extra ∧
      (∀ k, k < i → fs.pathExists (get_new_dir dir k extra) = true) ∧
      p' ≠ p := by
  obtain ⟨i, h1, h2, h3⟩ := make_new_dir_sound fs dir extra
  set p := get_new_dir dir i extra with hp
  set fs' : FS := { fs with dirs := p :: fs.dirs } with hfs'
  obtain ⟨i', h1', h2', _⟩ := make_new_dir_sound fs' dir extra
  refine ⟨p, fs', get_new_dir dir i' extra, _, i, h1, h1', h2, ?_, rfl, h3, ?_⟩
  · simp [FS.pathExists, hfs']
  · intro hcontra
    rw [hcontra] at h2'
    simp [FS.pathExists, hfs'] at h2'

/-- Witness for `make_new_dir_spec` at a concrete filesystem in which the
ordinal-0 candidate already exists. -/
theorem make_new_dir_spec_witness :
    ∃ p fs' p' fs'' i,
      make_new_dir ⟨[["w"], ["w", "mxstar.0"]], []⟩ ["w"] none = some (p, fs') ∧
      make_new_dir fs' ["w"] none = some (p', fs'') ∧
      FS.pathExists ⟨[["w"], ["w", "mxstar.0"]], []⟩ p = false ∧
      fs'.pathExists p = true ∧
      p = get_new_dir ["w"] i none ∧
      (∀ k, k < i → FS.pathExists ⟨[["w"], ["w", "mxstar.0"]], []⟩
        (get_new_dir ["w"] k none) = true) ∧
      p' ≠ p :=
  make_new_dir_spec ⟨[["w"], ["w", "mxstar.0"]], []⟩ ["w"] none

/-! ### Isolation and environment-check properties -/

lemma setup_pfiles_ok {env : List (String × String)} {jobDir : FsPath} {fs fs' : FS}
    {dst : FsPath} (h : setup_pfiles env jobDir fs = .ok (fs', dst)) :
    fs'.files = (jobDir ++ ["pfiles", "xstar.par"]) :: fs.files := by
  unfold setup_pfiles at h
  by_cases h1 : fs.pathExists (jobDir ++ ["pfiles"]) = true
  · rw [if_pos h1] at h
    cases h
  · rw [if_neg h1] at h
    cases h2 : env.lookup "HEADAS" with
    | none =>
      rw [h2] at h
      dsimp only at h
      cases h
    | some headas =>
      rw [h2] at h
      dsimp only at h
      by_cases h3 : ([headas, "syspfiles", "xstar.par"] : FsPath) ∈ fs.files
      · rw [if_pos h3] at h
        cases h
        rfl
      · rw [if_neg h3] at h
        cases h

/-- C2.  Every job that runs through its isolation setup ends with a private
copy of the parameter file at `jobDir/pfiles/xstar.par`: the copy exists in
the resulting filesystem, lies strictly below the job's own working
directory, and for any other job key the corresponding copy path is
different (no aliasing between jobs). -/
theorem run_xstar_pfiles_isolated (env : List (String × String)) (modelDir : FsPath)
    (k : String) (cmd : String) (fs fs' : FS) (dst : FsPath)
    (h : run_xstar_fs env fs (modelDir ++ [k], cmd) = .ok (fs', dst)) :
    ((modelDir ++ [k]) ++ ["pfiles", "xstar.par"]) ∈ fs'.files ∧
    (∃ rest, rest ≠ [] ∧
      (modelDir ++ [k]) ++ ["pfiles", "xstar.par"] = (modelDir ++ [k]) ++ rest) ∧
    (∀ k' : String, k' ≠ k →
      (modelDir ++ [k']) ++ ["pfiles", "xstar.par"] ≠
        (modelDir ++ [k]) ++ ["pfiles", "xstar.par"]) := by
  refine ⟨?_, ⟨["pfiles", "xstar.par"], by simp, rfl⟩, ?_⟩
  · rw [setup_pfiles_ok h]
    exact List.mem_cons_self _ _
  · intro k' hk' hcontra
    rw [List.append_assoc, List.append_assoc] at hcontra
    have h1 := List.append_cancel_left hcontra
    simp only [List.cons_append, List.cons.injEq] at h1
    exact hk' h1.1

/-- Witness for `run_xstar_pfiles_isolated` on a concrete job. -/
theorem run_xstar_pfiles_isolated_witness :
    run_xstar_fs [("FTOOLS", "/ft"), ("HEADAS", "/hea")]
        ⟨[["m"], ["m", "01"]], [["/hea", "syspfiles", "xstar.par"]]⟩
        (["m"] ++ ["01"], "xstar modelname='mod'") =
      .ok (⟨[["m", "01", "pfiles"], ["m"], ["m", "01"]],
            [["m", "01", "pfiles", "xstar.par"], ["/hea", "syspfiles", "xstar.par"]]⟩,
           ["m", "01", "pfiles"]) ∧
    ((["m"] ++ ["01"]) ++ ["pfiles", "xstar.par"]) ∈
      ([["m", "01", "pfiles", "xstar.par"], ["/hea", "syspfiles", "xstar.par"]] :
        List FsPath) :=
  ⟨rfl, (run_xstar_pfiles_isolated [("FTOOLS", "/ft"), ("HEADAS", "/hea")] ["m"] "01"
    "xstar modelname='mod'" ⟨[["m"], ["m", "01"]], [["/hea", "syspfiles", "xstar.par"]]⟩
    ⟨[["m", "01", "pfiles"], ["m"], ["m", "01"]],
      [["m", "01", "pfiles", "xstar.par"], ["/hea", "syspfiles", "xstar.par"]]⟩
    ["m", "01", "pfiles"] rfl).1⟩

/-- Environment containing only the `FTOOLS` variable. -/
def envFT : List (String × String) := [("FTOOLS", "/opt/ftools")]

/-- C7 counterexample.  The up-front environment check succeeds although
`HEADAS` is absent, so the absence of `HEADAS` is not a fatal error raised
before any job runs: it only surfaces when a job's `setup_pfiles` evaluates
`Path(os.getenv("HEADAS"))`. -/
theorem check_enviroment_headas_unchecked :
    check_enviroment envFT ⟨[["w"]], []⟩ ["w"] = .ok ⟨[["w"]], []⟩ ∧
    envFT.lookup "HEADAS" = none ∧
    setup_pfiles envFT ["m", "01"] ⟨[["m"], ["m", "01"]], []⟩ =
      .error "TypeError: expected str, not NoneType" :=
  ⟨rfl, rfl, rfl⟩

/-- C7 amended.  Only `FTOOLS` is required by the up-front check: a
successful `check_enviroment` guarantees `FTOOLS` is set, while a missing
`HEADAS` makes every job's isolation setup fail at job run time. -/
theorem check_enviroment_amended (env : List (String × String)) (fs fs' : FS)
    (dir : FsPath) :
    (check_enviroment env fs dir = .ok fs' → (env.lookup "FTOOLS").isSome) ∧
    (env.lookup "HEADAS" = none → ∀ (jobDir : FsPath) (fs₂ : FS),
      fs₂.pathExists (jobDir ++ ["pfiles"]) = false →
      setup_pfiles env jobDir fs₂ = .error "TypeError: expected str, not NoneType") := by
  constructor
  · intro h
    unfold check_enviroment at h
    by_cases h1 : (env.lookup "FTOOLS").isNone = true
    · rw [if_pos h1] at h
      cases h
    · simpa [Option.isSome_iff_ne_none, Option.isNone_iff_eq_none] using h1
  · intro hh jobDir fs₂ hpf
    unfold setup_pfiles
    rw [if_neg (by simp [hpf]), hh]

/-- Witness for `check_enviroment_amended` at concrete inputs. -/
theorem check_enviroment_amended_witness :
    (check_enviroment envFT ⟨[["w"]], []⟩ ["w"] = .ok ⟨[["w"]], []⟩ →
      (envFT.lookup "FTOOLS").isSome) ∧
    setup_pfiles envFT ["m", "01"] ⟨[["m"], ["m", "01"]], []⟩ =
      .error "TypeError: expected str, not NoneType" :=
  ⟨(check_enviroment_amended envFT ⟨[["w"]], []⟩ ⟨[["w"]], []⟩ ["w"]).1,
   (check_enviroment_amended envFT ⟨[["w"]], []⟩ ⟨[["w"]], []⟩ ["w"]).2 rfl
     ["m", "01"] ⟨[["m"], ["m", "01"]], []⟩ (by rfl)⟩

/-- Filesystem whose target directory already contains a file named like the
writability probe. -/
def fsProbe : FS := ⟨[["w"]], [["w", "write_check.test"]]⟩

/-- C10 counterexample.  On a directory that already contains a file named
`write_check.test`, the environment check succeeds but deletes that file, so
a successful check is not observationally a no-op on every directory
state. -/
theorem check_enviroment_deletes_probe :
    check_enviroment envFT fsProbe ["w"] = .ok ⟨[["w"]], []⟩ ∧
    (⟨[["w"]], []⟩ : FS) ≠ fsProbe :=
  ⟨rfl, by decide⟩

/-- C10 amended.  Whenever the environment check succeeds and the target
directory did not already contain a file named `write_check.test`, the check
returns the filesystem unchanged: the probe file is created and deleted
within the call. -/
theorem check_enviroment_noop_amended (env : List (String × String)) (fs : FS)
    (dir : FsPath) (hprobe : (dir ++ ["write_check.test"]) ∉ fs.files)
    (hok : ∃ fs', check_enviroment env fs dir = .ok fs') :
    check_enviroment env fs dir = .ok fs := by
  obtain ⟨fs', h⟩ := hok
  unfold check_enviroment at h ⊢
  by_cases h1 : (env.lookup "FTOOLS").isNone = true
  · rw [if_pos h1] at h
    cases h
  · rw [if_neg h1] at h ⊢
    by_cases h2 : dir ∉ fs.dirs
    · rw [if_pos h2] at h
      cases h
    · rw [if_neg h2]
      simp only [if_neg hprobe, List.erase_cons_head]

/-- Witness for `check_enviroment_noop_amended` at concrete inputs. -/
theorem check_enviroment_noop_amended_witness :
    check_enviroment envFT ⟨[["w"]], [["w", "data.txt"]]⟩ ["w"] =
      .ok ⟨[["w"]], [["w", "data.txt"]]⟩ :=
  check_enviroment_noop_amended envFT ⟨[["w"]], [["w", "data.txt"]]⟩ ["w"]
    (by decide) ⟨⟨[["w"]], [["w", "data.txt"]]⟩, rfl⟩

/-! ### Model-name extraction properties -/

lemma takeUntilQuote_append (v rest : List Char)
    (hv : ∀ c ∈ v, c ≠ '\'' ∧ c ≠ '\n') :
    takeUntilQuote (v ++ '\'' :: rest) = some v := by
  induction v with
  | nil => simp [takeUntilQuote]
  | cons c cs ih =>
    obtain ⟨hc, hnl⟩ := hv c (List.mem_cons_self c cs)
    rw [List.cons_append, takeUntilQuote, if_neg hc, if_neg hnl,
      ih (fun x hx => hv x (List.mem_cons_of_mem c hx))]
    rfl

lemma searchModelname_cons (c : Char) (rest : List Char) :
    searchModelname (c :: rest) =
      if patModelname.isPrefixOf (c :: rest) then
        match takeUntilQuote ((c :: rest).drop patModelname.length) with
        | some v => some v
        | none => searchModelname rest
      else searchModelname rest := by
  rw [searchModelname]

lemma searchModelname_at_match (v rest : List Char)
    (hv : ∀ c ∈ v, c ≠ '\'' ∧ c ≠ '\n') :
    searchModelname (patModelname ++ (v ++ '\'' :: rest)) = some v := by
  have hshape : patModelname ++ (v ++ '\'' :: rest) =
      'm' :: ("odelname='".data ++ (v ++ '\'' :: rest)) := rfl
  rw [hshape, searchModelname_cons]
  have hpre : patModelname.isPrefixOf
      ('m' :: ("odelname='".data ++ (v ++ '\'' :: rest))) = true := by
    rw [← hshape]
    simp
  rw [if_pos hpre, ← hshape,
    show (patModelname ++ (v ++ '\'' :: rest)).drop patModelname.length =
      v ++ '\'' :: rest from List.drop_left _ _,
    takeUntilQuote_append v rest hv]

lemma patModelname_eq : patModelname = "modelname=".data ++ ['\''] := rfl

lemma searchModelname_pre : ∀ (pre v rest : List Char), '\'' ∉ pre →
    (∀ c ∈ v, c ≠ '\'' ∧ c ≠ '\n') →
    searchModelname (pre ++ (patModelname ++ (v ++ '\'' :: rest))) = some v := by
  intro pre
  induction pre with
  | nil =>
    intro v rest _ hv
    rw [List.nil_append]
    exact searchModelname_at_match v rest hv
  | cons c pre' ih =>
    intro v rest hpre hv
    have hpre' : '\'' ∉ pre' := fun h => hpre (List.mem_cons_of_mem c h)
    rw [List.cons_append, searchModelname_cons]
    have hnp : ¬ patModelname.isPrefixOf
        (c :: (pre' ++ (patModelname ++ (v ++ '\'' :: rest)))) = true := by
      intro hp
      rw [ List.isPrefixOf_iff_prefix] at hp
      obtain ⟨t, ht⟩ := hp
      have hshape : c :: (pre' ++ (patModelname ++ (v ++ '\'' :: rest))) =
          ((c :: pre') ++ "modelname=".data) ++ ('\'' :: (v ++ '\'' :: rest)) := by
        rw [patModelname_eq]
        simp
      rw [hshape] at ht
      have h11 : patModelname =
          (((c :: pre') ++ "modelname=".data) ++
            ('\'' :: (v ++ '\'' :: rest))).take patModelname.length := by
        rw [← ht, List.take_left]
      have hpl : patModelname.length = 11 := rfl
      have hmn : ("modelname=" : String).data.length = 10 := rfl
      have hlen : patModelname.length ≤ ((c :: pre') ++ "modelname=".data).length := by
        rw [hpl, List.length_append, List.length_cons, hmn]
        omega
      rw [List.take_append_of_le_length hlen] at h11
      have hq : '\'' ∈ ((c :: pre') ++ "modelname=".data).take patModelname.length := by
        rw [← h11]
        decide
      have hq2 := List.take_subset _ _ hq
      rw [List.mem_append] at hq2
      rcases hq2 with hq2 | hq2
      · exact hpre hq2
      · revert hq2
        decide
    rw [if_neg hnp]
    exact ih v rest hpre' hv

lemma searchModelname_none_of_no_pat (s : List Char) (h : containsPat s = false) :
    searchModelname s = none := by
  induction s with
  | nil => rfl
  | cons c rest ih =>
    rw [containsPat] at h
    have h1 : patModelname.isPrefixOf (c :: rest) = false ∧ containsPat rest = false := by
      simpa using h
    rw [searchModelname_cons, if_neg (by simp [h1.1])]
    exact ih h1.2

lemma containsPat_iff (s : List Char) :
    containsPat s = true ↔ ∃ a b, s = a ++ (patModelname ++ b) := by
  induction s with
  | nil =>
    constructor
    · intro h
      simp [containsPat] at h
    · rintro ⟨a, b, hab⟩
      have hlen := congrArg List.length hab
      have hpl : patModelname.length = 11 := rfl
      rw [List.length_nil, List.length_append, List.length_append, hpl] at hlen
      omega
  | cons c rest ih =>
    rw [containsPat, Bool.or_eq_true]
    constructor
    · rintro (hp | hp)
      · rw [ List.isPrefixOf_iff_prefix] at hp
        obtain ⟨t, ht⟩ := hp
        exact ⟨[], t, by rw [List.nil_append, ← ht]⟩
      · obtain ⟨a, b, hab⟩ := ih.mp hp
        exact ⟨c :: a, b, by rw [List.cons_append, ← hab]⟩
    · rintro ⟨a, b, hab⟩
      cases a with
      | nil =>
        left
        rw [List.nil_append] at hab
        rw [ List.isPrefixOf_iff_prefix]
        exact ⟨b, hab.symm⟩
      | cons a0 a' =>
        right
        rw [List.cons_append] at hab
        injection hab with h1 h2
        exact ih.mpr ⟨a', b, h2⟩

lemma get_model_name_cons (cmd : String) (cmds : List String) :
    get_model_name (make_jobs (cmd :: cmds)) =
      match searchModelname cmd.data with
      | some v => .ok ⟨v⟩
      | none => .error "AttributeError" := rfl

/-- C3 counterexample.  On a first command whose `modelname` assignment uses
double quotes, model-name extraction does not return the quoted value: the
single-quote-only regular expression finds no match and the code fails with
an untyped `AttributeError` (from `None.group(1)`), not with a typed
malformed-command error. -/
theorem get_model_name_double_quote_fails :
    get_model_name (make_jobs ["xstar modelname=\"abc\" spectrum=pow"]) =
      .error "AttributeError" ∧
    get_model_name (make_jobs ["xstar modelname=\"abc\" spectrum=pow"]) ≠
      .ok "abc" :=
  ⟨rfl, fun h => Except.noConfusion h⟩

/-- C3 amended.  Extraction on a first command consisting of any
single-quote-free text followed by a single-quoted `modelname='<value>'`
assignment and then anything returns the value, provided the value contains
neither a single quote nor a newline (the regular expression's `.` does not
match a newline); on a first command whose text does not contain the
substring `modelname='` at all (no single-quoted modelname field), the
search finds nothing and the call fails with the untyped `AttributeError`.
The third clause identifies the scanner hypothesis `containsPat` with the
plain substring decomposition. -/
theorem get_model_name_amended :
    (∀ (pre v rest : String), '\'' ∉ pre.data →
      (∀ c ∈ v.data, c ≠ '\'' ∧ c ≠ '\n') → ∀ cmds : List String,
      get_model_name
          (make_jobs ((pre ++ "modelname='" ++ v ++ "'" ++ rest) :: cmds)) =
        .ok v) ∧
    (∀ (cmd : String) (cmds : List String), containsPat cmd.data = false →
      get_model_name (make_jobs (cmd :: cmds)) = .error "AttributeError") ∧
    (∀ s : List Char, containsPat s = true ↔ ∃ a b, s = a ++ (patModelname ++ b)) := by
  refine ⟨?_, ?_, containsPat_iff⟩
  · intro pre v rest hpre hv cmds
    rw [get_model_name_cons]
    have hq : ("'" : String).data = ['\''] := rfl
    have hdata : (pre ++ "modelname='" ++ v ++ "'" ++ rest).data =
        pre.data ++ (patModelname ++ (v.data ++ '\'' :: rest.data)) := by
      simp [String.data_append, hq, patModelname]
    rw [hdata, searchModelname_pre pre.data v.data rest.data hpre hv]
  · intro cmd cmds hc
    rw [get_model_name_cons, searchModelname_none_of_no_pat cmd.data hc]

/-- Witness for `get_model_name_amended` at concrete commands: a command
containing the assignment mid-text, and a command with a quoted field other
than `modelname` (no `modelname='` substring). -/
theorem get_model_name_amended_witness :
    '\'' ∉ ("xstar " : String).data ∧
    (∀ c ∈ ("abc" : String).data, c ≠ '\'' ∧ c ≠ '\n') ∧
    get_model_name
        (make_jobs ["xstar " ++ "modelname='" ++ "abc" ++ "'" ++ " spectrum=pow"]) =
      .ok "abc" ∧
    containsPat ("xstar column='density'" : String).data = false ∧
    get_model_name (make_jobs ["xstar column='density'"]) =
      .error "AttributeError" :=
  ⟨by decide, by decide,
   get_model_name_amended.1 "xstar " "abc" " spectrum=pow" (by decide) (by decide) [],
   by decide,
   get_model_name_amended.2.1 "xstar column='density'" [] (by decide)⟩

/-! ### Empty command lists -/

/-- C4 counterexample.  Building the job set from an empty command list does
not fail with an input error: the dict comprehension simply produces the
empty job set. -/
theorem make_jobs_nil_empty : make_jobs ([] : List String) = [] := rfl

/-- C4 amended.  `make_jobs []` succeeds with the empty job set; the failure
only surfaces afterwards, when model-name extraction iterates the empty dict
and raises the untyped `StopIteration`. -/
theorem make_jobs_nil_amended :
    make_jobs ([] : List String) = [] ∧
    get_model_name (make_jobs ([] : List String)) = .error "StopIteration" :=
  ⟨rfl, rfl⟩

/-! ### Result verification -/

/-- C8 counterexample.  `check_results` returns the failed jobs' full run
directories, not their bare keys: with model directory `m` and key `1`, the
failed entry is `["m", "1"]` and not the key path `["1"]`. -/
theorem check_results_returns_dirs_not_keys :
    check_results ⟨[], []⟩ (run_dirs_of ["m"] ["1"]) = [["m", "1"]] ∧
    check_results ⟨[], []⟩ (run_dirs_of ["m"] ["1"]) ≠ [["1"]] :=
  ⟨rfl, by decide⟩

/-- C8 amended.  Result verification over the per-key run directories is a
pure filesystem inspection returning exactly the directories of the jobs
whose directory lacks the fixed artifact `xout_spect1.fits` (the failed keys
in directory form, in key order), and it returns the empty list exactly when
every job directory contains the artifact. -/
theorem check_results_amended (fs : FS) (model_dir : FsPath) (keys : List String) :
    check_results fs (run_dirs_of model_dir keys) =
      (keys.filter
        (fun k => ! fs.pathExists (model_dir ++ [k] ++ ["xout_spect1.fits"]))).map
        (fun k => model_dir ++ [k]) ∧
    (check_results fs (run_dirs_of model_dir keys) = [] ↔
      ∀ k ∈ keys, fs.pathExists (model_dir ++ [k] ++ ["xout_spect1.fits"]) = true) := by
  have h1 : check_results fs (run_dirs_of model_dir keys) =
      (keys.filter
        (fun k => ! fs.pathExists (model_dir ++ [k] ++ ["xout_spect1.fits"]))).map
        (fun k => model_dir ++ [k]) := by
    unfold check_results run_dirs_of
    rw [List.filter_map]
    rfl
  refine ⟨h1, ?_⟩
  rw [h1]
  constructor
  · intro he k hk
    rw [List.map_eq_nil_iff, List.filter_eq_nil_iff] at he
    have := he k hk
    simpa using this
  · intro hall
    rw [List.map_eq_nil_iff, List.filter_eq_nil_iff]
    intro k hk
    have h2 := hall k hk
    rw [List.append_assoc] at h2
    simp
    exact h2

/-- Witness for `check_results_amended`: two seeded job directories, one with
the artifact and one without. -/
theorem check_results_amended_witness :
    check_results ⟨[["m", "1"], ["m", "2"]], [["m", "1", "xout_spect1.fits"]]⟩
        (run_dirs_of ["m"] ["1", "2"]) =
      ((["1", "2"] : List String).filter
        (fun k => ! FS.pathExists ⟨[["m", "1"], ["m", "2"]], [["m", "1", "xout_spect1.fits"]]⟩
          (["m"] ++ [k] ++ ["xout_spect1.fits"]))).map (fun k => ["m"] ++ [k]) :=
  (check_results_amended ⟨[["m", "1"], ["m", "2"]], [["m", "1", "xout_spect1.fits"]]⟩
    ["m"] ["1", "2"]).1

/-! ### Aggregation and the tail of `main` -/

/-- Filesystem after a fully successful run of one job: the artifact is in
place and the job-generation output `xstinitable.fits` is a regular file. -/
def fsAllOk : FS :=
  ⟨[["m"], ["m", "01"]], [["m", "01", "xout_spect1.fits"], ["xstinitable.fits"]]⟩

/-- Same run with the job's artifact missing. -/
def fsMissing : FS := ⟨[["m"], ["m", "01"]], [["xstinitable.fits"]]⟩

/-- C9 (code bug).  Aggregation never copies the base tables: with a joblist
argument `Path(args[0]).with_suffix("fits")` raises `ValueError` (the suffix
lacks the leading dot), and without arguments `copy_tree` is applied to the
regular file `xstinitable.fits` and raises `DistutilsFileError` because the
source is not a directory; either way `make_xstable` fails before any
`xstar2table` invocation. -/
theorem make_xstable_raises :
    make_xstable ["joblist.lis"] fsAllOk [["m", "01"]] ["m"] =
      .error "ValueError: Invalid suffix" ∧
    make_xstable [] fsAllOk [["m", "01"]] ["m"] =
      .error "DistutilsFileError: cannot copy tree: not a directory" :=
  ⟨rfl, rfl⟩

/-- C1 (code bug).  The gating itself holds (aggregation is invoked only
when no job failed, and a missing artifact forces exit status 1 without
aggregation), but on a run in which every job produced its artifact the
invoked `make_xstable` raises, so the process still terminates with a
non-zero status: the exit status is not non-zero *only if* some artifact is
missing. -/
theorem main_tail_nonzero_despite_success :
    check_results fsAllOk [["m", "01"]] = [] ∧
    main_tail [] fsAllOk [["m", "01"]] ["m"] = (1, true) ∧
    main_tail [] fsMissing [["m", "01"]] ["m"] = (1, false) :=
  ⟨rfl, rfl, rfl⟩
